import Mathlib

/-!
Verification of the AFCON fantasy ownership pipeline.

The development shallowly embeds the pipeline's core:
* `normalize_player_entry` / `normalize_market` (the record normalizer and
  market table builder of `parser.py` / `scraper.py`),
* the roster aggregation loop and the ownership merge of
  `league_ownershup.py`.

Conventions of the embedding:
* Python dicts are insertion-ordered association lists (`Dict K V`);
  `d[k] = v` on a present key updates in place, on an absent key appends.
* JSON `null` / absent keys are `none`; present JSON objects are `some`.
* Python numeric truthiness (`x or y` treats `0` as false) is modeled
  explicitly by `pyOrQ` / `pyOrNat`, and `if next_start_ts` by a
  zero test on the timestamp.
* pandas Series `.map(dict)` is `Option.bind` with dictionary lookup
  (missing keys become `none`, the model of NaN), and
  `sort_values(..., ascending=False)` (default `na_position` places
  missing values last) is a merge sort by the lexicographic descending
  key with `none` as the bottom element.
-/

namespace Afcon

/-- A Python dict: insertion-ordered association list. -/
abbrev Dict (K V : Type) := List (K × V)

/-- Lookup (`d.get(k)` / `d[k]`): first entry with the key. -/
def dictGet {K V : Type} [DecidableEq K] : Dict K V → K → Option V
  | [], _ => none
  | (k', v) :: rest, k => if k' = k then some v else dictGet rest k

/-- Assignment `d[k] = v`: update in place if present, append if absent. -/
def dictSet {K V : Type} [DecidableEq K] : Dict K V → K → V → Dict K V
  | [], k, v => [(k, v)]
  | (k', v') :: rest, k, v =>
      if k' = k then (k, v) :: rest else (k', v') :: dictSet rest k v

/-- Increment: `if k in d: d[k] += 1 else: d[k] = 1`. -/
def incrKey {K : Type} [DecidableEq K] (d : Dict K Nat) (k : K) : Dict K Nat :=
  match dictGet d k with
  | some n => dictSet d k (n + 1)
  | none => dictSet d k 1

/-- One participant's squad data as collected by the fetch loop of
`league_ownershup.py` (lines 28-51): team name, starter and substitute
player-id lists, and the optional captain. -/
structure TeamData where
  team_name : String
  starters : List Nat
  substitutes : List Nat
  captain : Option Nat
deriving DecidableEq

/-- The four accumulator dicts of the aggregation loop
(`player_team_counts`, `player_starters_counts`, `player_captains_counts`,
`player_owners`).  `captain_counts` is keyed by `Option Nat`: the Python
code uses `team_data["captain"]` (possibly `None`) directly as dict key. -/
structure AggState where
  team_counts : Dict Nat Nat
  starter_counts : Dict Nat Nat
  captain_counts : Dict (Option Nat) Nat
  owners : Dict Nat (List String)
deriving DecidableEq

/-- The shared branch of the starter and substitute loops:
increment `player_team_counts[p]` and append the team name to
`player_owners[p]` when present, otherwise initialise both. -/
def addOwned (tc : Dict Nat Nat) (ow : Dict Nat (List String)) (p : Nat)
    (name : String) : Dict Nat Nat × Dict Nat (List String) :=
  match dictGet tc p with
  | some n => (dictSet tc p (n + 1), dictSet ow p ((dictGet ow p).getD [] ++ [name]))
  | none => (dictSet tc p 1, dictSet ow p [name])

/-- Fold `addOwned` over a list of player ids (one of the two inner loops). -/
def addOwnedList (st : Dict Nat Nat × Dict Nat (List String)) (name : String) :
    List Nat → Dict Nat Nat × Dict Nat (List String)
  | [] => st
  | p :: ps => addOwnedList (addOwned st.1 st.2 p name) name ps

/-- One iteration of the aggregation loop (lines 59-87): starters then
substitutes feed `team_counts`/`owners`, starters feed `starter_counts`,
and the captain key (possibly `none`) feeds `captain_counts`. -/
def processTeam (st : AggState) (td : TeamData) : AggState :=
  let s1 := addOwnedList (st.team_counts, st.owners) td.team_name td.starters
  let s2 := addOwnedList s1 td.team_name td.substitutes
  let sc := td.starters.foldl incrKey st.starter_counts
  let cc := incrKey st.captain_counts td.captain
  ⟨s2.1, sc, cc, s2.2⟩

/-- The whole aggregation pass over the league's participants, in list
(= insertion) order, starting from empty dicts. -/
def aggregate (league : List TeamData) : AggState :=
  league.foldl processTeam ⟨[], [], [], []⟩

/-! ### Raw market records (input of the normalizer) -/

/-- Nested `player` object. -/
structure PlayerObj where
  id : Option Nat
  name : Option String
  slug : Option String
  position : Option String
deriving DecidableEq

/-- Nested `team` object. -/
structure TeamObj where
  id : Option Nat
  name : Option String
deriving DecidableEq

/-- One element of the `fixtures` array. -/
structure Fixture where
  eventStartTimestamp : Option Int
  fixtureDifficulty : Option ℚ
  eventId : Option Nat
  team : Option TeamObj
deriving DecidableEq

/-- Nested `fantasyPlayer` object. -/
structure FantasyObj where
  player : Option PlayerObj
  team : Option TeamObj
  price : Option ℚ
  averageScore : Option ℚ
  averageScoreRank : Option Nat
  totalScore : Option ℚ
  totalPoints : Option ℚ
  totalScoreRank : Option Nat
  form : Option ℚ
  formRank : Option Nat
  ownedPercentage : Option ℚ
  ownedCount : Option Nat
  ownedRank : Option Nat
  adds : Option Nat
  drops : Option Nat
  totalPlayersOnPosition : Option Nat
  hasLeftCompetition : Option Bool
  id : Option Nat
  status : Option String
deriving DecidableEq

/-- One raw record from the market API. -/
structure RawEntry where
  fantasyPlayer : Option FantasyObj
  player : Option PlayerObj
  team : Option TeamObj
  fixtures : Option (List Fixture)
  price : Option ℚ
  expectedPoints : Option ℚ
  roundPlayerId : Option Nat
  id : Option Nat
deriving DecidableEq

def emptyPlayerObj : PlayerObj := ⟨none, none, none, none⟩

def emptyTeamObj : TeamObj := ⟨none, none⟩

def emptyFixture : Fixture := ⟨none, none, none, none⟩

def emptyFantasyObj : FantasyObj :=
  ⟨none, none, none, none, none, none, none, none, none, none,
   none, none, none, none, none, none, none, none, none⟩

/-- The record with every top-level field absent. -/
def emptyEntry : RawEntry := ⟨none, none, none, none, none, none, none, none⟩

/-- Python `a or b` on nullable numbers: `0` and `None` are falsy. -/
def pyOrQ (a b : Option ℚ) : Option ℚ :=
  match a with
  | some x => if x = 0 then b else some x
  | none => b

/-- Python `a or b` on nullable integer ids: `0` and `None` are falsy. -/
def pyOrNat (a b : Option Nat) : Option Nat :=
  match a with
  | some x => if x = 0 then b else some x
  | none => b

/-! ### UTC ISO-8601 formatting (`datetime.utcfromtimestamp(ts).isoformat() + "Z"`) -/

/-- Left-pad a natural number with zeros to two digits. -/
def pad2 (n : Nat) : String :=
  if n < 10 then "0" ++ toString n else toString n

/-- Left-pad a natural number with zeros to four digits. -/
def pad4 (n : Nat) : String :=
  if n < 10 then "000" ++ toString n
  else if n < 100 then "00" ++ toString n
  else if n < 1000 then "0" ++ toString n
  else toString n

/-- Convert days since 1970-01-01 to a proleptic Gregorian civil date
(year, month, day), following the classic days-to-civil algorithm. -/
def civilFromDays (z0 : Int) : Int × Nat × Nat :=
  let z := z0 + 719468
  let era := z.fdiv 146097
  let doe := (z - era * 146097).toNat
  let yoe := (doe - doe / 1460 + doe / 36524 - doe / 146096) / 365
  let y := (yoe : Int) + era * 400
  let doy := doe - (365 * yoe + yoe / 4 - yoe / 100)
  let mp := (5 * doy + 2) / 153
  let d := doy - (153 * mp + 2) / 5 + 1
  let m := if mp < 10 then mp + 3 else mp - 9
  (if m ≤ 2 then y + 1 else y, m, d)

/-- Render an integer year, padding non-negative years to four digits. -/
def yearStr (y : Int) : String :=
  if y < 0 then toString y else pad4 y.toNat

/-- Render `datetime.utcfromtimestamp(ts).isoformat() + "Z"` for whole-second
timestamps: `YYYY-MM-DDTHH:MM:SSZ` in UTC. -/
def isoUtc (ts : Int) : String :=
  let days := ts.fdiv 86400
  let secs := (ts - days * 86400).toNat
  let ymd := civilFromDays days
  yearStr ymd.1 ++ "-" ++ pad2 ymd.2.1 ++ "-" ++ pad2 ymd.2.2 ++ "T" ++
    pad2 (secs / 3600) ++ ":" ++ pad2 (secs % 3600 / 60) ++ ":" ++
    pad2 (secs % 60) ++ "Z"

/-! ### The record normalizer -/

/-- The flat row produced by `normalize_player_entry`.  Every cell of the
resulting table is nullable; `fixtures_count` is always populated (with
the length of the `fixtures` array). -/
structure PlayerRow where
  player_id : Option Nat
  name : Option String
  slug : Option String
  position : Option String
  team : Option String
  team_id : Option Nat
  price : Option ℚ
  expected_points : Option ℚ
  average_score : Option ℚ
  average_score_rank : Option Nat
  total_points : Option ℚ
  total_points_rank : Option Nat
  form : Option ℚ
  form_rank : Option Nat
  owned_percentage : Option ℚ
  owned_count : Option Nat
  owned_rank : Option Nat
  adds : Option Nat
  drops : Option Nat
  total_players_on_position : Option Nat
  has_left_competition : Option Bool
  round_player_id : Option Nat
  fantasy_id : Option Nat
  status : Option String
  fixture_difficulty : Option ℚ
  event_id : Option Nat
  event_start_timestamp : Option Int
  event_start_iso_utc : Option String
  fixtures_count : Option Nat
  next_opponent : Option String
  next_opponent_id : Option Nat
deriving DecidableEq

/-- Ascending order on fixtures by start timestamp, as used by the
`sorted(..., key=_ts)` call (all compared fixtures carry a timestamp). -/
def fixtureLe (f g : Fixture) : Prop :=
  f.eventStartTimestamp.getD 0 ≤ g.eventStartTimestamp.getD 0

instance : DecidableRel fixtureLe := fun f g => by
  unfold fixtureLe
  infer_instance

instance : IsTotal Fixture fixtureLe :=
  ⟨fun f g => Int.le_total (f.eventStartTimestamp.getD 0) (g.eventStartTimestamp.getD 0)⟩

instance : IsTrans Fixture fixtureLe :=
  ⟨fun _ _ _ h1 h2 => le_trans h1 h2⟩

/-- Fixture selection: keep fixtures with a non-null start timestamp,
sort them ascending by that timestamp (Python `sorted` is a stable sort,
modeled by the stable `insertionSort`), take the first; otherwise fall
back to the first fixture in input order, or to the empty object. -/
def chooseFixture (fixtures : List Fixture) : Fixture :=
  let withTs := fixtures.filter (fun f => f.eventStartTimestamp.isSome)
  let sortedFx := withTs.insertionSort fixtureLe
  match sortedFx with
  | f :: _ => f
  | [] =>
    match fixtures with
    | f :: _ => f
    | [] => emptyFixture

/-- The normalizer `normalize_player_entry`: flatten one raw record into a `PlayerRow`.
Mirrors the fallback chains of the source (`fantasy.get("player") or
entry.get("player") or {}` and so on); `if next_start_ts` means the ISO
string is produced only for a truthy (non-zero) timestamp. -/
def normalize_player_entry (entry : RawEntry) : PlayerRow :=
  let fantasy := entry.fantasyPlayer.getD emptyFantasyObj
  let player := (fantasy.player <|> entry.player).getD emptyPlayerObj
  let team := (fantasy.team <|> entry.team).getD emptyTeamObj
  let fixtures := entry.fixtures.getD []
  let next_fixture := chooseFixture fixtures
  let next_start_ts := next_fixture.eventStartTimestamp
  let next_fixture_team := next_fixture.team.getD emptyTeamObj
  { player_id := player.id
    name := player.name
    slug := player.slug
    position := player.position
    team := team.name
    team_id := team.id
    price := pyOrQ entry.price fantasy.price
    expected_points := entry.expectedPoints
    average_score := fantasy.averageScore
    average_score_rank := fantasy.averageScoreRank
    total_points := pyOrQ fantasy.totalScore fantasy.totalPoints
    total_points_rank := fantasy.totalScoreRank
    form := fantasy.form
    form_rank := fantasy.formRank
    owned_percentage := fantasy.ownedPercentage
    owned_count := fantasy.ownedCount
    owned_rank := fantasy.ownedRank
    adds := fantasy.adds
    drops := fantasy.drops
    total_players_on_position := fantasy.totalPlayersOnPosition
    has_left_competition := fantasy.hasLeftCompetition
    round_player_id := entry.roundPlayerId
    fantasy_id := pyOrNat fantasy.id entry.id
    status := fantasy.status
    fixture_difficulty := next_fixture.fixtureDifficulty
    event_id := next_fixture.eventId
    event_start_timestamp := next_start_ts
    event_start_iso_utc :=
      match next_start_ts with
      | some t => if t = 0 then none else some (isoUtc t)
      | none => none
    fixtures_count := some fixtures.length
    next_opponent := next_fixture_team.name
    next_opponent_id := next_fixture_team.id }

/-- The message of the empty-result error. -/
def noPlayersMsg : String := "No players found in the market payload."

/-- The builder `normalize_market`: map the normalizer over the payload and fail with
the empty-result error when no rows were produced. -/
def normalize_market (players : List RawEntry) : Except String (List PlayerRow) :=
  let rows := players.map normalize_player_entry
  if rows.isEmpty then Except.error noPlayersMsg
  else Except.ok rows

/-! ### The ownership merger (`league_ownershup.py`, lines 93-110) -/

/-- The columns of the stored market snapshot consumed by the merger. -/
structure MarketRow where
  player_id : Option Nat
  name : Option String
  team : Option String
  position : Option String
  total_points : Option ℚ
  owned_percentage : Option ℚ
deriving DecidableEq

/-- One row of the final enriched table (`edited_df`), after the column
selection and renaming of lines 105-106. -/
structure EnrichedRow where
  player : Option String
  team : Option String
  pos : Option String
  total_points : Option ℚ
  round_points : Option ℚ
  global_own_pct : Option ℚ
  league_own_pct : Option ℚ
  league_start_pct : Option ℚ
  league_cpt_pct : Option ℚ
  league_owners : Option (List String)
deriving DecidableEq

/-- Descending order on `(player_id, count)` pairs by count, as used by
`sorted(player_team_counts.items(), key=lambda x: x[1], reverse=True)`. -/
def countGe (a b : Nat × Nat) : Prop := b.2 ≤ a.2

instance : DecidableRel countGe := fun a b => by
  unfold countGe
  infer_instance

instance : IsTotal (Nat × Nat) countGe := ⟨fun a b => Nat.le_total b.2 a.2⟩

instance : IsTrans (Nat × Nat) countGe := ⟨fun _ _ _ h1 h2 => le_trans h2 h1⟩

/-- Lines 93-95: `sorted(player_team_counts.items(), key=count,
reverse=True)` rebuilt into a dict.  Keys are unique, so the rebuilt dict
is the sorted pair list itself. -/
def sortedTeamCounts (tc : Dict Nat Nat) : Dict Nat Nat :=
  tc.insertionSort countGe

/-- One row of the merge (lines 99-106): pandas `.map(dict)` yields NaN
(`none`) on a missing key, and dividing NaN by the participant count
leaves NaN. -/
def enrichRow (agg : AggState) (participant_count : Nat) (r : MarketRow) :
    EnrichedRow :=
  { player := r.name
    team := r.team
    pos := r.position
    total_points := r.total_points
    round_points := r.total_points
    global_own_pct := r.owned_percentage
    league_own_pct :=
      (r.player_id.bind (fun p => dictGet (sortedTeamCounts agg.team_counts) p)).map
        (fun c => (c : ℚ) / (participant_count : ℚ))
    league_start_pct :=
      (r.player_id.bind (fun p => dictGet agg.starter_counts p)).map
        (fun c => (c : ℚ) / (participant_count : ℚ))
    league_cpt_pct :=
      (r.player_id.bind (fun p => dictGet agg.captain_counts (some p))).map
        (fun c => (c : ℚ) / (participant_count : ℚ))
    league_owners := r.player_id.bind (fun p => dictGet agg.owners p) }

/-- The left side of the join is the market table: one enriched row per
market row, in market order. -/
def buildEnriched (agg : AggState) (participant_count : Nat)
    (market : List MarketRow) : List EnrichedRow :=
  market.map (enrichRow agg participant_count)

/-- Rank of a nullable rate for the descending sort: `none` (NaN, which
pandas places last regardless of sort direction) is the bottom element. -/
def rank (o : Option ℚ) : WithBot ℚ :=
  match o with
  | none => ⊥
  | some x => (x : WithBot ℚ)

/-- One tier of the lexicographic descending comparison: `r` may precede
`s` when `r`'s key is strictly greater, or the keys tie and the remaining
tiers allow it. -/
abbrev lexStep (x y : WithBot ℚ) (rest : Prop) : Prop :=
  y < x ∨ (x = y ∧ rest)

/-- The composite sort key of line 110: `League Own %`, `League Start %`,
`League Cpt %`, `Global Own %`, each descending with nulls lowest. -/
def rowKeyGe (r s : EnrichedRow) : Prop :=
  lexStep (rank r.league_own_pct) (rank s.league_own_pct)
    (lexStep (rank r.league_start_pct) (rank s.league_start_pct)
      (lexStep (rank r.league_cpt_pct) (rank s.league_cpt_pct)
        (rank s.global_own_pct ≤ rank r.global_own_pct)))

instance rowKeyGeDecidable (r s : EnrichedRow) : Decidable (rowKeyGe r s) := by
  unfold rowKeyGe
  infer_instance

instance : DecidableRel rowKeyGe := rowKeyGeDecidable

/-- The sort `sort_values(by=[the four rate columns], ascending=False)`. -/
def sortEnriched (rows : List EnrichedRow) : List EnrichedRow :=
  rows.insertionSort rowKeyGe

/-- The whole merge step: aggregate the league, enrich every market row,
sort by the composite key.  The divisor is `len(participants)`, the
league's total participant count. -/
def leagueMergePipeline (league : List TeamData) (market : List MarketRow) :
    List EnrichedRow :=
  sortEnriched (buildEnriched (aggregate league) league.length market)

/-! ### Specification-side helper functions -/

/-- A participant's full squad listing: starters then substitutes. -/
def squadOf (td : TeamData) : List Nat := td.starters ++ td.substitutes

/-- A count as the dict stores it: no entry (`none`) when zero. -/
def natOpt (n : Nat) : Option Nat := if n = 0 then none else some n

/-- Add `n` occurrences to a stored count. -/
def optAdd (o : Option Nat) (n : Nat) : Option Nat :=
  match o with
  | some m => some (m + n)
  | none => natOpt n

/-- Append names to a stored owners list. -/
def optApp (o : Option (List String)) (l : List String) : Option (List String) :=
  if l = [] then o else some (o.getD [] ++ l)

/-- An owners list as the dict stores it: no entry when empty. -/
def listOpt (l : List String) : Option (List String) :=
  if l = [] then none else some l

/-- Total number of occurrences of player `p` across all squad listings. -/
def teamOccTotal (league : List TeamData) (p : Nat) : Nat :=
  (league.map (fun td => (squadOf td).count p)).sum

/-- Total number of occurrences of player `p` across all starter lists. -/
def starterOccTotal (league : List TeamData) (p : Nat) : Nat :=
  (league.map (fun td => td.starters.count p)).sum

/-- Number of participants whose captain entry is exactly `k`. -/
def captainOcc (league : List TeamData) (k : Option Nat) : Nat :=
  league.countP (fun td => td.captain == k)

/-- The owners names for player `p`, one per occurrence, in participant
processing order. -/
def ownersSeq (league : List TeamData) (p : Nat) : List String :=
  (league.map (fun td => List.replicate ((squadOf td).count p) td.team_name)).flatten

/-- The team-count and owners dicts always carry the same key set. -/
def keysSync (tc : Dict Nat Nat) (ow : Dict Nat (List String)) : Prop :=
  ∀ p, dictGet tc p = none ↔ dictGet ow p = none

/-- A dict has pairwise-distinct keys. -/
def keysNodup {K V : Type} [DecidableEq K] (d : Dict K V) : Prop :=
  (d.map Prod.fst).Nodup

/-- The player is a key of at least one of the aggregate's mappings. -/
def aggHasPlayer (agg : AggState) (p : Nat) : Prop :=
  dictGet agg.team_counts p ≠ none ∨ dictGet agg.starter_counts p ≠ none ∨
    dictGet agg.captain_counts (some p) ≠ none ∨ dictGet agg.owners p ≠ none

/-- The property claimed of the normalizer's output on the empty record:
every field other than `player_id` is null. -/
def rowNullExceptId (r : PlayerRow) : Prop :=
  r.name = none ∧ r.slug = none ∧ r.position = none ∧ r.team = none ∧
  r.team_id = none ∧ r.price = none ∧ r.expected_points = none ∧
  r.average_score = none ∧ r.average_score_rank = none ∧
  r.total_points = none ∧ r.total_points_rank = none ∧ r.form = none ∧
  r.form_rank = none ∧ r.owned_percentage = none ∧ r.owned_count = none ∧
  r.owned_rank = none ∧ r.adds = none ∧ r.drops = none ∧
  r.total_players_on_position = none ∧ r.has_left_competition = none ∧
  r.round_player_id = none ∧ r.fantasy_id = none ∧ r.status = none ∧
  r.fixture_difficulty = none ∧ r.event_id = none ∧
  r.event_start_timestamp = none ∧ r.event_start_iso_utc = none ∧
  r.fixtures_count = none ∧ r.next_opponent = none ∧
  r.next_opponent_id = none

instance (agg : AggState) (p : Nat) : Decidable (aggHasPlayer agg p) := by
  unfold aggHasPlayer
  infer_instance

instance (r : PlayerRow) : Decidable (rowNullExceptId r) := by
  unfold rowNullExceptId
  infer_instance

/-! ### Concrete data used by the examples and witnesses -/

/-- Participant A of the two-participant scenario. -/
def teamA : TeamData := ⟨"Team A", [1, 2], [], some 1⟩

/-- Participant B of the two-participant scenario. -/
def teamB : TeamData := ⟨"Team B", [2], [3], none⟩

/-- A four-participant league: player 7 starts in two squads and is a
substitute in one. -/
def league4 : List TeamData :=
  [⟨"T1", [7], [], none⟩, ⟨"T2", [7, 8], [], none⟩,
   ⟨"T3", [9], [7], none⟩, ⟨"T4", [8], [], none⟩]

/-- A market row for player 7. -/
def mrow7 : MarketRow := ⟨some 7, some "P", none, none, none, none⟩

/-- A market row for a player owned by nobody in the example league. -/
def mrow99 : MarketRow := ⟨some 99, none, none, none, none, none⟩

/-- A market row carrying a total-points value. -/
def mrowT : MarketRow := ⟨some 5, some "N", none, none, some 5, none⟩

/-- A one-participant aggregate whose only rostered player is 1. -/
def aggX : AggState := aggregate [⟨"X", [1], [], some 1⟩]

def fx300 : Fixture := ⟨some 300, none, none, none⟩

def fx100 : Fixture := ⟨some 100, none, none, none⟩

def fxNull1 : Fixture := ⟨none, none, some 1, none⟩

def fxNull2 : Fixture := ⟨none, none, some 2, none⟩

/-- A raw record whose only fixture starts at timestamp `0` (the Unix
epoch): a present, non-null timestamp that Python truthiness rejects. -/
def tsZeroEntry : RawEntry :=
  { emptyEntry with fixtures := some [⟨some 0, none, none, none⟩] }

/-- A raw record whose only fixture starts at timestamp `100`. -/
def tsEntry : RawEntry :=
  { emptyEntry with fixtures := some [⟨some 100, none, none, none⟩] }

/-! ### Dictionary lemmas -/

theorem dictGet_dictSet {K V : Type} [DecidableEq K] (d : Dict K V) (k q : K)
    (v : V) : dictGet (dictSet d k v) q = if k = q then some v else dictGet d q := by
  induction d with
  | nil => simp [dictGet, dictSet]
  | cons kv rest ih =>
    obtain ⟨k', v'⟩ := kv
    by_cases hk : k' = k
    · subst hk
      simp only [dictSet, if_pos rfl, dictGet]
      by_cases hq : k' = q <;> simp [hq]
    · simp only [dictSet, if_neg hk, dictGet]
      by_cases hq : k' = q
      · subst hq
        have : ¬ k = k' := fun h => hk h.symm
        simp [this]
      · simp [hq, ih]

theorem dictGet_incrKey {K : Type} [DecidableEq K] (d : Dict K Nat) (k q : K) :
    dictGet (incrKey d k) q =
      if k = q then some ((dictGet d k).getD 0 + 1) else dictGet d q := by
  unfold incrKey
  cases h : dictGet d k <;> simp [dictGet_dictSet, h]

theorem dictGet_none_iff {K V : Type} [DecidableEq K] (d : Dict K V) (k : K) :
    dictGet d k = none ↔ ∀ kv ∈ d, kv.1 ≠ k := by
  induction d with
  | nil => simp [dictGet]
  | cons kv rest ih =>
    obtain ⟨k', v'⟩ := kv
    by_cases h : k' = k
    · subst h
      simp [dictGet]
    · simp [dictGet, h, ih]

theorem dictGet_some_mem {K V : Type} [DecidableEq K] {d : Dict K V} {k : K}
    {v : V} (h : dictGet d k = some v) : (k, v) ∈ d := by
  induction d with
  | nil => simp [dictGet] at h
  | cons kv rest ih =>
    obtain ⟨k', v'⟩ := kv
    by_cases hk : k' = k
    · subst hk
      simp [dictGet] at h
      simp [h]
    · simp [dictGet, hk] at h
      exact List.mem_cons_of_mem _ (ih h)

theorem dictGet_of_mem {K V : Type} [DecidableEq K] {d : Dict K V} {k : K}
    {v : V} (hn : keysNodup d) (h : (k, v) ∈ d) : dictGet d k = some v := by
  induction d with
  | nil => simp at h
  | cons kv rest ih =>
    obtain ⟨k', v'⟩ := kv
    have hn' : (rest.map Prod.fst).Nodup := (List.nodup_cons.mp hn).2
    rcases List.mem_cons.mp h with h1 | h2
    · rw [Prod.mk.injEq] at h1
      simp [dictGet, h1.1, h1.2]
    · have hk : k' ≠ k := by
        intro he
        subst he
        exact (List.nodup_cons.mp hn).1 (List.mem_map.mpr ⟨(k', v), h2, rfl⟩)
      simp [dictGet, hk, ih hn' h2]

theorem dictGet_eq_of_perm {K V : Type} [DecidableEq K] {d d' : Dict K V}
    (hp : d.Perm d') (hn : keysNodup d) (k : K) : dictGet d k = dictGet d' k := by
  cases h : dictGet d k with
  | none =>
    have h' := (dictGet_none_iff d k).mp h
    symm
    rw [dictGet_none_iff]
    intro kv hkv
    exact h' kv (hp.mem_iff.mpr hkv)
  | some v =>
    have hmem : (k, v) ∈ d' := hp.mem_iff.mp (dictGet_some_mem h)
    have hn' : keysNodup d' := ((hp.map Prod.fst).nodup_iff).mp hn
    exact (dictGet_of_mem hn' hmem).symm

theorem dictGet_none_of_perm {K V : Type} [DecidableEq K] {d d' : Dict K V}
    (hp : d.Perm d') {k : K} (h : dictGet d k = none) : dictGet d' k = none := by
  rw [dictGet_none_iff] at h ⊢
  intro kv hkv
  exact h kv (hp.mem_iff.mpr hkv)

theorem keys_dictSet_absent {K V : Type} [DecidableEq K] {d : Dict K V} {k : K}
    (v : V) (h : dictGet d k = none) :
    (dictSet d k v).map Prod.fst = d.map Prod.fst ++ [k] := by
  induction d with
  | nil => simp [dictSet]
  | cons kv rest ih =>
    obtain ⟨k', v'⟩ := kv
    by_cases hk : k' = k
    · subst hk
      simp [dictGet] at h
    · simp only [dictGet, if_neg hk] at h
      simp [dictSet, if_neg hk, ih h]

theorem keys_dictSet_present {K V : Type} [DecidableEq K] {d : Dict K V} {k : K}
    (v : V) (h : dictGet d k ≠ none) :
    (dictSet d k v).map Prod.fst = d.map Prod.fst := by
  induction d with
  | nil => simp [dictGet] at h
  | cons kv rest ih =>
    obtain ⟨k', v'⟩ := kv
    by_cases hk : k' = k
    · subst hk
      simp [dictSet]
    · simp only [dictGet, if_neg hk] at h
      simp [dictSet, if_neg hk, ih h]

theorem keysNodup_dictSet {K V : Type} [DecidableEq K] {d : Dict K V} (k : K)
    (v : V) (hn : keysNodup d) : keysNodup (dictSet d k v) := by
  unfold keysNodup
  cases h : dictGet d k with
  | none =>
    rw [keys_dictSet_absent v h]
    have hk : k ∉ d.map Prod.fst := by
      intro hmem
      obtain ⟨⟨k1, v1⟩, hkv, he⟩ := List.mem_map.mp hmem
      exact (dictGet_none_iff d k).mp h (k1, v1) hkv he
    exact List.Nodup.append hn (List.nodup_singleton k)
      (by simpa [List.disjoint_singleton] using hk)
  | some w =>
    rw [keys_dictSet_present v (by simp [h])]
    exact hn

theorem keysNodup_incrKey {K : Type} [DecidableEq K] {d : Dict K Nat} (k : K)
    (hn : keysNodup d) : keysNodup (incrKey d k) := by
  unfold incrKey
  cases dictGet d k <;> exact keysNodup_dictSet _ _ hn

/-! ### Counting lemmas for the aggregation fold -/

theorem optAdd_zero (o : Option Nat) : optAdd o 0 = o := by
  cases o <;> simp [optAdd, natOpt]

theorem optAdd_optAdd (o : Option Nat) (m n : Nat) :
    optAdd (optAdd o m) n = optAdd o (m + n) := by
  cases o with
  | none =>
    cases m with
    | zero => simp [optAdd, natOpt]
    | succ m' =>
      simp only [optAdd, natOpt, if_neg (Nat.succ_ne_zero m')]
      by_cases hn : m' + 1 + n = 0
      · omega
      · simp [if_neg hn]
  | some v => simp [optAdd, Nat.add_assoc]

theorem dictGet_incrKey_optAdd {K : Type} [DecidableEq K] (d : Dict K Nat)
    (k q : K) :
    dictGet (incrKey d k) q =
      if k = q then optAdd (dictGet d k) 1 else dictGet d q := by
  rw [dictGet_incrKey]
  by_cases h : k = q
  · subst h
    cases hd : dictGet d k <;> simp [optAdd, natOpt, hd]
  · simp [h]

theorem dictGet_foldl_incrKey {K : Type} [DecidableEq K] (l : List K) :
    ∀ (d : Dict K Nat) (q : K),
      dictGet (l.foldl incrKey d) q = optAdd (dictGet d q) (l.count q) := by
  induction l with
  | nil => intro d q; simp [optAdd_zero]
  | cons a l ih =>
    intro d q
    rw [List.foldl_cons, ih, dictGet_incrKey_optAdd]
    by_cases h : a = q
    · subst h
      rw [if_pos rfl, optAdd_optAdd, List.count_cons_self, Nat.add_comm]
    · rw [if_neg h, List.count_cons_of_ne (fun he => h he.symm)]

theorem addOwned_fst (tc : Dict Nat Nat) (ow : Dict Nat (List String)) (p : Nat)
    (name : String) : (addOwned tc ow p name).1 = incrKey tc p := by
  unfold addOwned incrKey
  cases dictGet tc p <;> rfl

theorem addOwnedList_fst (ps : List Nat) :
    ∀ (tc : Dict Nat Nat) (ow : Dict Nat (List String)) (name : String),
      (addOwnedList (tc, ow) name ps).1 = ps.foldl incrKey tc := by
  induction ps with
  | nil => intro tc ow name; rfl
  | cons p ps ih =>
    intro tc ow name
    show (addOwnedList (addOwned tc ow p name) name ps).1 = _
    rw [show addOwned tc ow p name =
          ((addOwned tc ow p name).1, (addOwned tc ow p name).2) from rfl,
        ih, addOwned_fst, List.foldl_cons]

theorem addOwned_keysSync {tc : Dict Nat Nat} {ow : Dict Nat (List String)}
    (p : Nat) (name : String) (hs : keysSync tc ow) :
    keysSync (addOwned tc ow p name).1 (addOwned tc ow p name).2 := by
  intro q
  unfold addOwned
  cases h : dictGet tc p with
  | some n =>
    simp only [dictGet_dictSet]
    by_cases hq : p = q
    · simp [hq]
    · simp [hq, hs q]
  | none =>
    simp only [dictGet_dictSet]
    by_cases hq : p = q
    · simp [hq]
    · simp [hq, hs q]

theorem addOwned_snd_get {tc : Dict Nat Nat} {ow : Dict Nat (List String)}
    (p : Nat) (name : String) (hs : keysSync tc ow) (q : Nat) :
    dictGet (addOwned tc ow p name).2 q =
      if p = q then some ((dictGet ow q).getD [] ++ [name]) else dictGet ow q := by
  unfold addOwned
  cases h : dictGet tc p with
  | some n =>
    simp only [dictGet_dictSet]
    by_cases hq : p = q
    · subst hq; simp
    · simp [hq]
  | none =>
    have how : dictGet ow p = none := (hs p).mp h
    simp only [dictGet_dictSet]
    by_cases hq : p = q
    · subst hq; simp [how]
    · simp [hq]

theorem optApp_nil (o : Option (List String)) : optApp o [] = o := by
  simp [optApp]

theorem optApp_optApp (o : Option (List String)) (l1 l2 : List String) :
    optApp (optApp o l1) l2 = optApp o (l1 ++ l2) := by
  by_cases h1 : l1 = []
  · subst h1; simp [optApp]
  · by_cases h2 : l2 = []
    · subst h2; simp [optApp]
    · have h12 : l1 ++ l2 ≠ [] := by simp [h1]
      simp [optApp, if_neg h1, if_neg h2, if_neg h12, h1]

theorem addOwnedList_spec (ps : List Nat) :
    ∀ (tc : Dict Nat Nat) (ow : Dict Nat (List String)) (name : String),
      keysSync tc ow →
      keysSync (addOwnedList (tc, ow) name ps).1 (addOwnedList (tc, ow) name ps).2 ∧
      ∀ q, dictGet (addOwnedList (tc, ow) name ps).2 q =
        optApp (dictGet ow q) (List.replicate (ps.count q) name) := by
  induction ps with
  | nil =>
    intro tc ow name hs
    exact ⟨hs, fun q => by simp [addOwnedList, optApp_nil]⟩
  | cons p ps ih =>
    intro tc ow name hs
    have hstep : addOwnedList (tc, ow) name (p :: ps) =
        addOwnedList ((addOwned tc ow p name).1, (addOwned tc ow p name).2) name ps := rfl
    have hs' := addOwned_keysSync p name hs
    obtain ⟨hsync, hget⟩ := ih (addOwned tc ow p name).1 (addOwned tc ow p name).2 name hs'
    refine ⟨by rw [hstep]; exact hsync, fun q => ?_⟩
    rw [hstep, hget q, addOwned_snd_get p name hs q]
    by_cases hq : p = q
    · subst hq
      rw [if_pos rfl, List.count_cons_self, List.replicate_succ]
      have : optApp (dictGet ow p) [name] =
          some ((dictGet ow p).getD [] ++ [name]) := by
        simp [optApp]
      rw [show (some ((dictGet ow p).getD [] ++ [name])) = optApp (dictGet ow p) [name] from this.symm,
          optApp_optApp]
      rfl
    · rw [if_neg hq, List.count_cons_of_ne (fun he => hq he.symm)]

/-! ### Per-participant and whole-league aggregation lemmas -/

theorem processTeam_team_counts_eq (st : AggState) (td : TeamData) :
    (processTeam st td).team_counts = (squadOf td).foldl incrKey st.team_counts := by
  show (addOwnedList (addOwnedList (st.team_counts, st.owners) td.team_name td.starters)
      td.team_name td.substitutes).1 = _
  rw [show addOwnedList (st.team_counts, st.owners) td.team_name td.starters =
        ((addOwnedList (st.team_counts, st.owners) td.team_name td.starters).1,
         (addOwnedList (st.team_counts, st.owners) td.team_name td.starters).2) from rfl,
      addOwnedList_fst, addOwnedList_fst, squadOf, List.foldl_append]

theorem processTeam_spec (st : AggState) (td : TeamData)
    (hs : keysSync st.team_counts st.owners) :
    keysSync (processTeam st td).team_counts (processTeam st td).owners ∧
    (∀ q, dictGet (processTeam st td).team_counts q =
      optAdd (dictGet st.team_counts q) ((squadOf td).count q)) ∧
    (∀ q, dictGet (processTeam st td).starter_counts q =
      optAdd (dictGet st.starter_counts q) (td.starters.count q)) ∧
    (∀ k, dictGet (processTeam st td).captain_counts k =
      if td.captain = k then optAdd (dictGet st.captain_counts k) 1
      else dictGet st.captain_counts k) ∧
    (∀ q, dictGet (processTeam st td).owners q =
      optApp (dictGet st.owners q)
        (List.replicate ((squadOf td).count q) td.team_name)) := by
  obtain ⟨hsync1, hget1⟩ :=
    addOwnedList_spec td.starters st.team_counts st.owners td.team_name hs
  have hpair : addOwnedList (st.team_counts, st.owners) td.team_name td.starters =
      ((addOwnedList (st.team_counts, st.owners) td.team_name td.starters).1,
       (addOwnedList (st.team_counts, st.owners) td.team_name td.starters).2) := rfl
  obtain ⟨hsync2, hget2⟩ :=
    addOwnedList_spec td.substitutes
      (addOwnedList (st.team_counts, st.owners) td.team_name td.starters).1
      (addOwnedList (st.team_counts, st.owners) td.team_name td.starters).2
      td.team_name hsync1
  refine ⟨?_, ?_, ?_, ?_, ?_⟩
  · show keysSync (addOwnedList (addOwnedList (st.team_counts, st.owners)
        td.team_name td.starters) td.team_name td.substitutes).1
        (addOwnedList (addOwnedList (st.team_counts, st.owners)
        td.team_name td.starters) td.team_name td.substitutes).2
    rw [hpair]
    exact hsync2
  · intro q
    rw [processTeam_team_counts_eq, dictGet_foldl_incrKey]
  · intro q
    show dictGet (td.starters.foldl incrKey st.starter_counts) q = _
    rw [dictGet_foldl_incrKey]
  · intro k
    show dictGet (incrKey st.captain_counts td.captain) k = _
    rw [dictGet_incrKey_optAdd]
    by_cases hk : td.captain = k
    · simp [hk]
    · simp [hk]
  · intro q
    show dictGet (addOwnedList (addOwnedList (st.team_counts, st.owners)
        td.team_name td.starters) td.team_name td.substitutes).2 q = _
    rw [hpair, hget2 q, hget1 q, optApp_optApp, ← List.replicate_add,
        squadOf, List.count_append]

theorem teamOccTotal_cons (td : TeamData) (league : List TeamData) (q : Nat) :
    teamOccTotal (td :: league) q = (squadOf td).count q + teamOccTotal league q := by
  simp [teamOccTotal]

theorem starterOccTotal_cons (td : TeamData) (league : List TeamData) (q : Nat) :
    starterOccTotal (td :: league) q = td.starters.count q + starterOccTotal league q := by
  simp [starterOccTotal]

theorem captainOcc_cons (td : TeamData) (league : List TeamData) (k : Option Nat) :
    captainOcc (td :: league) k =
      (if td.captain = k then 1 else 0) + captainOcc league k := by
  simp only [captainOcc, List.countP_cons]
  by_cases hk : td.captain = k
  · simp [hk, Nat.add_comm]
  · have : (td.captain == k) = false := by simp [hk]
    simp [this, hk]

theorem ownersSeq_cons (td : TeamData) (league : List TeamData) (q : Nat) :
    ownersSeq (td :: league) q =
      List.replicate ((squadOf td).count q) td.team_name ++ ownersSeq league q := by
  simp [ownersSeq]

theorem foldl_processTeam_spec (league : List TeamData) :
    ∀ (st : AggState), keysSync st.team_counts st.owners →
      keysSync (league.foldl processTeam st).team_counts
        (league.foldl processTeam st).owners ∧
      (∀ q, dictGet (league.foldl processTeam st).team_counts q =
        optAdd (dictGet st.team_counts q) (teamOccTotal league q)) ∧
      (∀ q, dictGet (league.foldl processTeam st).starter_counts q =
        optAdd (dictGet st.starter_counts q) (starterOccTotal league q)) ∧
      (∀ k, dictGet (league.foldl processTeam st).captain_counts k =
        optAdd (dictGet st.captain_counts k) (captainOcc league k)) ∧
      (∀ q, dictGet (league.foldl processTeam st).owners q =
        optApp (dictGet st.owners q) (ownersSeq league q)) := by
  induction league with
  | nil =>
    intro st hs
    refine ⟨hs, fun q => ?_, fun q => ?_, fun k => ?_, fun q => ?_⟩ <;>
      simp [teamOccTotal, starterOccTotal, captainOcc, ownersSeq, optAdd_zero,
        optApp_nil]
  | cons td league ih =>
    intro st hs
    obtain ⟨hsync, htc, hsc, hcc, how⟩ := processTeam_spec st td hs
    obtain ⟨ihsync, ihtc, ihsc, ihcc, ihow⟩ := ih (processTeam st td) hsync
    refine ⟨by rw [List.foldl_cons]; exact ihsync, fun q => ?_, fun q => ?_,
      fun k => ?_, fun q => ?_⟩
    · rw [List.foldl_cons, ihtc q, htc q, optAdd_optAdd, teamOccTotal_cons]
    · rw [List.foldl_cons, ihsc q, hsc q, optAdd_optAdd, starterOccTotal_cons]
    · rw [List.foldl_cons, ihcc k, hcc k, captainOcc_cons]
      by_cases hk : td.captain = k
      · rw [if_pos hk, if_pos hk, optAdd_optAdd]
      · rw [if_neg hk, if_neg hk, Nat.zero_add]
    · rw [List.foldl_cons, ihow q, how q, optApp_optApp, ownersSeq_cons]

theorem keysSync_empty : keysSync ([] : Dict Nat Nat) ([] : Dict Nat (List String)) :=
  fun _ => by constructor <;> intro <;> rfl

theorem aggregate_team_counts_get (league : List TeamData) (q : Nat) :
    dictGet (aggregate league).team_counts q = natOpt (teamOccTotal league q) :=
  ((foldl_processTeam_spec league ⟨[], [], [], []⟩ keysSync_empty).2.1 q)

theorem aggregate_starter_counts_get (league : List TeamData) (q : Nat) :
    dictGet (aggregate league).starter_counts q = natOpt (starterOccTotal league q) :=
  ((foldl_processTeam_spec league ⟨[], [], [], []⟩ keysSync_empty).2.2.1 q)

theorem aggregate_captain_counts_get (league : List TeamData) (k : Option Nat) :
    dictGet (aggregate league).captain_counts k = natOpt (captainOcc league k) :=
  ((foldl_processTeam_spec league ⟨[], [], [], []⟩ keysSync_empty).2.2.2.1 k)

theorem aggregate_owners_get (league : List TeamData) (q : Nat) :
    dictGet (aggregate league).owners q = listOpt (ownersSeq league q) := by
  have h : dictGet (aggregate league).owners q = optApp none (ownersSeq league q) :=
    (foldl_processTeam_spec league ⟨[], [], [], []⟩ keysSync_empty).2.2.2.2 q
  rw [h]
  by_cases he : ownersSeq league q = [] <;> simp [optApp, listOpt, he]

theorem keysNodup_foldl_incrKey {K : Type} [DecidableEq K] (l : List K) :
    ∀ (d : Dict K Nat), keysNodup d → keysNodup (l.foldl incrKey d) := by
  induction l with
  | nil => intro d h; exact h
  | cons a l ih =>
    intro d h
    rw [List.foldl_cons]
    exact ih _ (keysNodup_incrKey a h)

theorem keysNodup_foldl_processTeam (league : List TeamData) :
    ∀ st : AggState, keysNodup st.team_counts →
      keysNodup (league.foldl processTeam st).team_counts := by
  induction league with
  | nil => intro st h; exact h
  | cons td league ih =>
    intro st h
    rw [List.foldl_cons]
    apply ih
    rw [processTeam_team_counts_eq]
    exact keysNodup_foldl_incrKey _ _ h

theorem aggregate_team_counts_keysNodup (league : List TeamData) :
    keysNodup (aggregate league).team_counts :=
  keysNodup_foldl_processTeam league ⟨[], [], [], []⟩ (by simp [keysNodup])

/-- Looking a player up in the count dict rebuilt from the descending-
sorted item list gives the same answer as in the original dict. -/
theorem dictGet_sortedTeamCounts (league : List TeamData) (q : Nat) :
    dictGet (sortedTeamCounts (aggregate league).team_counts) q =
      dictGet (aggregate league).team_counts q :=
  dictGet_eq_of_perm
    (List.perm_insertionSort countGe (aggregate league).team_counts)
    (((List.perm_insertionSort countGe (aggregate league).team_counts).map
        Prod.fst).nodup_iff.mpr (aggregate_team_counts_keysNodup league)) q

/-! ### Per-participant counts under the at-most-once squad invariant -/

theorem teamOccTotal_eq_countP (league : List TeamData)
    (h : ∀ td ∈ league, (squadOf td).Nodup) (p : Nat) :
    teamOccTotal league p =
      league.countP (fun td => decide (p ∈ squadOf td)) := by
  induction league with
  | nil => rfl
  | cons td l ih =>
    rw [teamOccTotal_cons, List.countP_cons,
      ih (fun td2 h2 => h td2 (List.mem_cons_of_mem td h2)),
      List.count_eq_of_nodup (h td (List.mem_cons_self td l))]
    by_cases hm : p ∈ squadOf td
    · simp [hm, Nat.add_comm]
    · simp [hm]

theorem starterOccTotal_eq_countP (league : List TeamData)
    (h : ∀ td ∈ league, (squadOf td).Nodup) (p : Nat) :
    starterOccTotal league p =
      league.countP (fun td => decide (p ∈ td.starters)) := by
  induction league with
  | nil => rfl
  | cons td l ih =>
    have hstart : td.starters.Nodup :=
      (List.nodup_append.mp (h td (List.mem_cons_self td l))).1
    rw [starterOccTotal_cons, List.countP_cons,
      ih (fun td2 h2 => h td2 (List.mem_cons_of_mem td h2)),
      List.count_eq_of_nodup hstart]
    by_cases hm : p ∈ td.starters
    · simp [hm, Nat.add_comm]
    · simp [hm]

theorem ownersSeq_eq_filterMap (league : List TeamData)
    (h : ∀ td ∈ league, (squadOf td).Nodup) (p : Nat) :
    ownersSeq league p =
      league.filterMap (fun td =>
        if p ∈ squadOf td then some td.team_name else none) := by
  induction league with
  | nil => rfl
  | cons td l ih =>
    rw [ownersSeq_cons, List.filterMap_cons,
      List.count_eq_of_nodup (h td (List.mem_cons_self td l)),
      ih (fun td2 h2 => h td2 (List.mem_cons_of_mem td h2))]
    by_cases hm : p ∈ squadOf td
    · simp [hm]
    · simp [hm]

/-! ### The composite descending order -/

theorem lexStep_trans {x y z : WithBot ℚ} {p q r : Prop} (h : p → q → r)
    (h1 : lexStep x y p) (h2 : lexStep y z q) : lexStep x z r := by
  rcases h1 with h1 | ⟨he1, hp⟩
  · rcases h2 with h2 | ⟨he2, hq⟩
    · exact Or.inl (lt_trans h2 h1)
    · rw [← he2]
      exact Or.inl h1
  · rw [he1]
    rcases h2 with h2 | ⟨he2, hq⟩
    · exact Or.inl h2
    · exact Or.inr ⟨he2, h hp hq⟩

theorem lexStep_total {x y : WithBot ℚ} {p q : Prop} (h : p ∨ q) :
    lexStep x y p ∨ lexStep y x q := by
  rcases lt_trichotomy x y with hlt | heq | hgt
  · exact Or.inr (Or.inl hlt)
  · rcases h with hp | hq
    · exact Or.inl (Or.inr ⟨heq, hp⟩)
    · exact Or.inr (Or.inr ⟨heq.symm, hq⟩)
  · exact Or.inl (Or.inl hgt)

theorem rowKeyGe_trans (a b c : EnrichedRow) (h1 : rowKeyGe a b)
    (h2 : rowKeyGe b c) : rowKeyGe a c :=
  lexStep_trans
    (fun u1 u2 => lexStep_trans
      (fun v1 v2 => lexStep_trans
        (fun w1 w2 => le_trans w2 w1) v1 v2) u1 u2) h1 h2

theorem rowKeyGe_total (a b : EnrichedRow) : rowKeyGe a b ∨ rowKeyGe b a :=
  lexStep_total (lexStep_total (lexStep_total (le_total _ _)))

instance : IsTotal EnrichedRow rowKeyGe := ⟨rowKeyGe_total⟩

instance : IsTrans EnrichedRow rowKeyGe := ⟨fun a b c => rowKeyGe_trans a b c⟩

theorem chooseFixture_eq (fixtures : List Fixture) :
    chooseFixture fixtures =
      match (fixtures.filter (fun f => f.eventStartTimestamp.isSome)).insertionSort
          fixtureLe with
      | f :: _ => f
      | [] =>
        match fixtures with
        | f :: _ => f
        | [] => emptyFixture := rfl

/-! ### The claims -/

/-- C2: the record normalizer chooses the fixture with the smallest
non-null start timestamp; with no timestamped fixture it falls back to
the first fixture in input order, and to the empty object when there are
no fixtures; concretely `[{ts 300}, {ts 100}, {ts null}]` selects the
`ts = 100` fixture and `[{ts null}, {ts null}]` selects index 0. -/
theorem fixture_selection_min_ts (fixtures : List Fixture) :
    ((∃ f ∈ fixtures, f.eventStartTimestamp.isSome) →
      chooseFixture fixtures ∈ fixtures ∧
      (chooseFixture fixtures).eventStartTimestamp.isSome ∧
      (∀ g ∈ fixtures, ∀ t : Int, g.eventStartTimestamp = some t →
        ∀ t0 : Int, (chooseFixture fixtures).eventStartTimestamp = some t0 →
          t0 ≤ t)) ∧
    ((∀ f ∈ fixtures, f.eventStartTimestamp = none) →
      chooseFixture fixtures = fixtures.head?.getD emptyFixture) ∧
    chooseFixture [fx300, fx100, emptyFixture] = fx100 ∧
    chooseFixture [fxNull1, fxNull2] = fxNull1 := by
  refine ⟨?_, ?_, by decide, by decide⟩
  · rintro ⟨f, hf, hfs⟩
    have hmemf : f ∈ fixtures.filter (fun f => f.eventStartTimestamp.isSome) :=
      List.mem_filter.mpr ⟨hf, hfs⟩
    have hperm := List.perm_insertionSort fixtureLe
      (fixtures.filter (fun f => f.eventStartTimestamp.isSome))
    have hsorted := List.sorted_insertionSort fixtureLe
      (fixtures.filter (fun f => f.eventStartTimestamp.isSome))
    cases hs : (fixtures.filter
        (fun f => f.eventStartTimestamp.isSome)).insertionSort fixtureLe with
    | nil =>
      rw [hs] at hperm
      exact absurd (hperm.mem_iff.mpr hmemf) (List.not_mem_nil f)
    | cons h0 t =>
      rw [hs] at hperm hsorted
      have hcf : chooseFixture fixtures = h0 := by
        rw [chooseFixture_eq, hs]
      have hh0 : h0 ∈ fixtures.filter (fun f => f.eventStartTimestamp.isSome) :=
        hperm.mem_iff.mp (List.mem_cons_self h0 t)
      obtain ⟨hh0mem, hh0some⟩ := List.mem_filter.mp hh0
      refine ⟨hcf ▸ hh0mem, hcf ▸ hh0some, ?_⟩
      intro g hg t ht t0 ht0
      rw [hcf] at ht0
      have hgfil : g ∈ fixtures.filter (fun f => f.eventStartTimestamp.isSome) :=
        List.mem_filter.mpr ⟨hg, by simp [ht]⟩
      rcases List.mem_cons.mp (hperm.mem_iff.mpr hgfil) with hgh | hgt
      · rw [hgh] at ht
        rw [ht0] at ht
        exact le_of_eq (Option.some.inj ht)
      · have hle : fixtureLe h0 g := (List.pairwise_cons.mp hsorted).1 g hgt
        unfold fixtureLe at hle
        rw [ht0, ht] at hle
        exact hle
  · intro hall
    have hfil : fixtures.filter (fun f => f.eventStartTimestamp.isSome) = [] := by
      rw [List.filter_eq_nil_iff]
      intro a ha
      simp [hall a ha]
    rw [chooseFixture_eq, hfil]
    cases fixtures with
    | nil => rfl
    | cons f l => rfl

/-- C2 witness: the all-null-timestamp fallback applied to the concrete
two-fixture list selects the fixture at index 0. -/
theorem fixture_selection_min_ts_witness :
    chooseFixture [fxNull1, fxNull2] =
      ([fxNull1, fxNull2].head?).getD emptyFixture ∧
    ([fxNull1, fxNull2].head?).getD emptyFixture = fxNull1 :=
  ⟨(fixture_selection_min_ts [fxNull1, fxNull2]).2.1 (by decide), by decide⟩

/-- C5: a participant whose squad has no captain slot leaves every
player's captain count unchanged (the Python code increments the dict
entry keyed by `None`, which is not a player id). -/
theorem no_captain_preserves_counts (st : AggState) (td : TeamData)
    (h : td.captain = none) (p : Nat) :
    dictGet (processTeam st td).captain_counts (some p) =
      dictGet st.captain_counts (some p) := by
  show dictGet (incrKey st.captain_counts td.captain) (some p) = _
  rw [dictGet_incrKey, h]
  simp

/-- C5 witness: processing the captainless participant B after
participant A changes no player-keyed captain count. -/
theorem no_captain_preserves_counts_witness :
    dictGet (processTeam (aggregate [teamA]) teamB).captain_counts (some 1) =
      dictGet (aggregate [teamA]).captain_counts (some 1) :=
  no_captain_preserves_counts (aggregate [teamA]) teamB (by decide) 1

/-- C6: the market table builder raises the empty-result error exactly
when the normalized row collection is empty, and otherwise returns the
normalizer mapped over the input in order. -/
theorem market_builder_empty_error (players : List RawEntry) :
    (normalize_market players = Except.error noPlayersMsg ↔
      players.map normalize_player_entry = []) ∧
    (players.map normalize_player_entry ≠ [] →
      normalize_market players =
        Except.ok (players.map normalize_player_entry)) := by
  unfold normalize_market
  by_cases h : (players.map normalize_player_entry).isEmpty
  · rw [if_pos h]
    have he : players.map normalize_player_entry = [] := by
      rwa [List.isEmpty_iff] at h
    exact ⟨⟨fun _ => he, fun _ => rfl⟩, fun hne => absurd he hne⟩
  · rw [if_neg h]
    have hne : players.map normalize_player_entry ≠ [] := by
      intro he
      exact h (List.isEmpty_iff.mpr he)
    refine ⟨⟨fun hcontra => ?_, fun he => absurd he hne⟩, fun _ => rfl⟩
    exact absurd hcontra (by simp)

/-- C6 witness: a one-record payload normalizes to a one-row table, and
the empty payload yields the empty-result error. -/
theorem market_builder_empty_error_witness :
    normalize_market [emptyEntry] =
      Except.ok ([emptyEntry].map normalize_player_entry) ∧
    normalize_market [] = Except.error noPlayersMsg :=
  ⟨(market_builder_empty_error [emptyEntry]).2 (by decide),
   (market_builder_empty_error []).1.mpr rfl⟩

/-- C7 counterexample: on the empty raw record the normalizer's row does
NOT have every non-`player_id` field null — `fixtures_count` is 0. -/
theorem empty_record_not_all_null :
    ¬ ((normalize_player_entry emptyEntry).player_id = none ∧
       rowNullExceptId (normalize_player_entry emptyEntry)) := by
  decide

/-- C7 amended: the normalizer never fails on missing nested fields, and
on the empty record it returns the row with `player_id` null and every
other field null, except `fixtures_count`, which is 0 (the length of the
empty fixtures list). -/
theorem empty_record_row :
    normalize_player_entry emptyEntry =
      { player_id := none, name := none, slug := none, position := none,
        team := none, team_id := none, price := none, expected_points := none,
        average_score := none, average_score_rank := none, total_points := none,
        total_points_rank := none, form := none, form_rank := none,
        owned_percentage := none, owned_count := none, owned_rank := none,
        adds := none, drops := none, total_players_on_position := none,
        has_left_competition := none, round_player_id := none,
        fantasy_id := none, status := none, fixture_difficulty := none,
        event_id := none, event_start_timestamp := none,
        event_start_iso_utc := none, fixtures_count := some 0,
        next_opponent := none, next_opponent_id := none } := by
  decide

/-- C10: both the `Total Points` and `Round Points` columns of every
final output row are populated from the market table's single
`total_points` field, so they are always equal. -/
theorem round_points_eq_total_points (league : List TeamData)
    (market : List MarketRow) :
    ∀ r ∈ leagueMergePipeline league market, r.round_points = r.total_points := by
  intro r hr
  have hr2 : r ∈ buildEnriched (aggregate league) league.length market :=
    (List.perm_insertionSort rowKeyGe
      (buildEnriched (aggregate league) league.length market)).mem_iff.mp hr
  obtain ⟨m, hm, he⟩ := List.mem_map.mp hr2
  rw [← he]
  rfl

/-- C10 witness: the concrete one-row pipeline output carries equal
round and total points. -/
theorem round_points_eq_total_points_witness :
    (enrichRow (aggregate []) 0 mrowT).round_points =
      (enrichRow (aggregate []) 0 mrowT).total_points :=
  round_points_eq_total_points [] [mrowT] (enrichRow (aggregate []) 0 mrowT)
    (by decide)

/-- C1: when every participant lists each player at most once in their
squad, the aggregated team count of a player is the number of
participants whose squad contains them, the starter count is the number
of participants who start them, and the merged rates divide those counts
by the league's total participant count. -/
theorem roster_counts_and_rates (league : List TeamData)
    (h : ∀ td ∈ league, (squadOf td).Nodup) (p : Nat) :
    dictGet (aggregate league).team_counts p =
      natOpt (league.countP (fun td => decide (p ∈ squadOf td))) ∧
    dictGet (aggregate league).starter_counts p =
      natOpt (league.countP (fun td => decide (p ∈ td.starters))) ∧
    ∀ r : MarketRow, r.player_id = some p →
      (enrichRow (aggregate league) league.length r).league_own_pct =
        (natOpt (league.countP (fun td => decide (p ∈ squadOf td)))).map
          (fun c => (c : ℚ) / (league.length : ℚ)) ∧
      (enrichRow (aggregate league) league.length r).league_start_pct =
        (natOpt (league.countP (fun td => decide (p ∈ td.starters)))).map
          (fun c => (c : ℚ) / (league.length : ℚ)) := by
  have htc : dictGet (aggregate league).team_counts p =
      natOpt (league.countP (fun td => decide (p ∈ squadOf td))) := by
    rw [aggregate_team_counts_get, teamOccTotal_eq_countP league h]
  have hsc : dictGet (aggregate league).starter_counts p =
      natOpt (league.countP (fun td => decide (p ∈ td.starters))) := by
    rw [aggregate_starter_counts_get, starterOccTotal_eq_countP league h]
  refine ⟨htc, hsc, fun r hr => ⟨?_, ?_⟩⟩
  · show ((r.player_id.bind (fun q =>
        dictGet (sortedTeamCounts (aggregate league).team_counts) q)).map
        (fun c => (c : ℚ) / (league.length : ℚ))) = _
    rw [hr, Option.some_bind, dictGet_sortedTeamCounts, htc]
  · show ((r.player_id.bind (fun q =>
        dictGet (aggregate league).starter_counts q)).map
        (fun c => (c : ℚ) / (league.length : ℚ))) = _
    rw [hr, Option.some_bind, hsc]

/-- C1 witness: in the four-participant league where player 7 starts in
two squads and substitutes in one, the merged rates are 3/4 and 1/2. -/
theorem roster_counts_and_rates_witness :
    (enrichRow (aggregate league4) league4.length mrow7).league_own_pct =
      some ((3 : ℚ) / 4) ∧
    (enrichRow (aggregate league4) league4.length mrow7).league_start_pct =
      some ((1 : ℚ) / 2) := by
  obtain ⟨h1, h2⟩ :=
    (roster_counts_and_rates league4 (by decide) 7).2.2 mrow7 (by decide)
  have hc1 : league4.countP (fun td => decide (7 ∈ squadOf td)) = 3 := by decide
  have hc2 : league4.countP (fun td => decide (7 ∈ td.starters)) = 2 := by decide
  constructor
  · rw [h1, hc1]
    show (natOpt 3).map (fun c => (c : ℚ) / (league4.length : ℚ)) =
      some ((3 : ℚ) / 4)
    norm_num [natOpt, league4]
  · rw [h2, hc2]
    show (natOpt 2).map (fun c => (c : ℚ) / (league4.length : ℚ)) =
      some ((1 : ℚ) / 2)
    norm_num [natOpt, league4]

/-- C3: the ownership merge is a left-outer join on the market table:
one enriched row per market row in market order, and a market row whose
player id matches no aggregate key gets null rates and no owners list. -/
theorem merge_left_outer_join (agg : AggState) (n : Nat)
    (market : List MarketRow) :
    (buildEnriched agg n market).length = market.length ∧
    (∀ i : Nat, (buildEnriched agg n market)[i]? =
      (market[i]?).map (enrichRow agg n)) ∧
    ∀ r : MarketRow, (∀ p, r.player_id = some p → ¬ aggHasPlayer agg p) →
      (enrichRow agg n r).league_own_pct = none ∧
      (enrichRow agg n r).league_start_pct = none ∧
      (enrichRow agg n r).league_cpt_pct = none ∧
      (enrichRow agg n r).league_owners = none := by
  refine ⟨by simp [buildEnriched], fun i => by simp [buildEnriched],
    fun r hr => ?_⟩
  cases hpid : r.player_id with
  | none => simp [enrichRow, hpid]
  | some p =>
    have hnp := hr p hpid
    unfold aggHasPlayer at hnp
    push_neg at hnp
    obtain ⟨h1, h2, h3, h4⟩ := hnp
    have hsort : dictGet (sortedTeamCounts agg.team_counts) p = none :=
      dictGet_none_of_perm
        (List.perm_insertionSort countGe agg.team_counts).symm h1
    simp [enrichRow, hpid, hsort, h2, h3, h4]

/-- C3 witness: player 99 matches no key of the one-participant
aggregate, so the concrete enriched row has null rates and no owners. -/
theorem merge_left_outer_join_witness :
    (enrichRow aggX 1 mrow99).league_own_pct = none ∧
    (enrichRow aggX 1 mrow99).league_start_pct = none ∧
    (enrichRow aggX 1 mrow99).league_cpt_pct = none ∧
    (enrichRow aggX 1 mrow99).league_owners = none :=
  (merge_left_outer_join aggX 1 [mrow99]).2.2 mrow99
    (by
      intro p hp
      have hp99 : p = 99 := by
        have : mrow99.player_id = some 99 := rfl
        rw [this] at hp
        exact (Option.some.inj hp).symm
      subst hp99
      decide)

/-- C4: the final merged output is sorted by the composite key
`league_own_pct`, `league_start_pct`, `league_cpt_pct`, then global
`owned_percentage`, each descending with nulls below every non-null
value, and it is a permutation of the enriched rows. -/
theorem merger_output_sorted (league : List TeamData)
    (market : List MarketRow) :
    (leagueMergePipeline league market).Pairwise rowKeyGe ∧
    (leagueMergePipeline league market).Perm
      (buildEnriched (aggregate league) league.length market) :=
  ⟨List.sorted_insertionSort rowKeyGe
      (buildEnriched (aggregate league) league.length market),
   List.perm_insertionSort rowKeyGe
      (buildEnriched (aggregate league) league.length market)⟩

/-- C8: the owners list of a player is one team name per owning
participant in processing order (under the at-most-once squad
invariant), and on the two-participant scenario the aggregates are
`team_count = {1:1, 2:2, 3:1}`, `starter_count = {1:1, 2:2}`,
`captain_count = {1:1}` (over player keys), and
`owners[2] = [A's name, B's name]`. -/
theorem owners_list_per_participant :
    (∀ league : List TeamData, (∀ td ∈ league, (squadOf td).Nodup) →
      ∀ p : Nat, dictGet (aggregate league).owners p =
        listOpt (league.filterMap (fun td =>
          if p ∈ squadOf td then some td.team_name else none))) ∧
    (aggregate [teamA, teamB]).team_counts = [(1, 1), (2, 2), (3, 1)] ∧
    (aggregate [teamA, teamB]).starter_counts = [(1, 1), (2, 2)] ∧
    (∀ p : Nat, dictGet (aggregate [teamA, teamB]).captain_counts (some p) =
      if p = 1 then some 1 else none) ∧
    dictGet (aggregate [teamA, teamB]).owners 2 =
      some ["Team A", "Team B"] := by
  refine ⟨?_, by decide, by decide, ?_, by decide⟩
  · intro league h p
    rw [aggregate_owners_get, ownersSeq_eq_filterMap league h]
  · intro p
    have hcc : (aggregate [teamA, teamB]).captain_counts =
        [(some 1, 1), (none, 1)] := by decide
    rw [hcc]
    by_cases hp : p = 1
    · subst hp
      rfl
    · have hp' : ¬ ((1 : Nat) = p) := fun he => hp he.symm
      simp [dictGet, hp, hp']

/-- C8 witness: the owners list for player 2 in the two-participant
scenario is the two team names in processing order. -/
theorem owners_list_per_participant_witness :
    dictGet (aggregate [teamA, teamB]).owners 2 =
      listOpt ([teamA, teamB].filterMap (fun td =>
        if 2 ∈ squadOf td then some td.team_name else none)) ∧
    listOpt ([teamA, teamB].filterMap (fun td =>
      if 2 ∈ squadOf td then some td.team_name else none)) =
      some ["Team A", "Team B"] :=
  ⟨owners_list_per_participant.1 [teamA, teamB] (by decide) 2, by decide⟩

/-- C9 counterexample: a record whose chosen fixture starts exactly at
the Unix epoch (timestamp 0, present and non-null) gets a null ISO
string: Python's `if next_start_ts` treats 0 as false. -/
theorem zero_ts_iso_null :
    (normalize_player_entry tsZeroEntry).event_start_timestamp = some 0 ∧
    (normalize_player_entry tsZeroEntry).event_start_iso_utc = none := by
  decide

/-- C9 amended: the normalizer emits the UTC ISO-8601 string derived
from the chosen fixture's start timestamp when that timestamp is present
and non-zero, and a null when it is absent or zero. -/
theorem iso_utc_presence (entry : RawEntry) :
    (∀ t : Int, (normalize_player_entry entry).event_start_timestamp = some t →
      t ≠ 0 →
      (normalize_player_entry entry).event_start_iso_utc = some (isoUtc t)) ∧
    ((normalize_player_entry entry).event_start_timestamp = some 0 ∨
      (normalize_player_entry entry).event_start_timestamp = none →
      (normalize_player_entry entry).event_start_iso_utc = none) := by
  have hts : (normalize_player_entry entry).event_start_timestamp =
      (chooseFixture (entry.fixtures.getD [])).eventStartTimestamp := rfl
  have hiso : (normalize_player_entry entry).event_start_iso_utc =
      (match (chooseFixture (entry.fixtures.getD [])).eventStartTimestamp with
        | some t => if t = 0 then none else some (isoUtc t)
        | none => none) := rfl
  cases hc : (chooseFixture (entry.fixtures.getD [])).eventStartTimestamp with
  | none =>
    constructor
    · intro t ht htz
      rw [hts, hc] at ht
      exact absurd ht (by simp)
    · intro _
      rw [hiso, hc]
  | some t1 =>
    constructor
    · intro t ht htz
      rw [hts, hc] at ht
      have ht1 : t1 = t := Option.some.inj ht
      subst ht1
      rw [hiso, hc]
      simp [htz]
    · intro hor
      rcases hor with h0 | hn
      · rw [hts, hc] at h0
        have ht1 : t1 = 0 := Option.some.inj h0
        subst ht1
        rw [hiso, hc]
        simp
      · rw [hts, hc] at hn
        exact absurd hn (by simp)

/-- C9 witness: a record whose chosen fixture starts at timestamp 100
gets the ISO string derived from 100. -/
theorem iso_utc_presence_witness :
    (normalize_player_entry tsEntry).event_start_iso_utc =
      some (isoUtc 100) :=
  (iso_utc_presence tsEntry).1 100 (by decide) (by decide)

end Afcon
